import Mathlib

/-!
Shallow embedding of `src/mcp_logger.py` (the MCP activity / session logger)
and verification of the specified reader/writer behaviours.

A log file is a list of lines; each line either is blank, fails JSON parsing,
or parses to a JSON value (`JVal`).  Python dicts are modelled as association
lists preserving insertion order, which matches both JSON-object parsing and
Python dict iteration order.  Machine-level concerns (file handles, clock) are
abstracted: the write-time timestamp and the possibility of an I/O failure are
explicit parameters.
-/

set_option autoImplicit false

namespace McpLogger

/-- A JSON value, as produced by `json.loads`.  Numbers are modelled as
integers (no claim involves fractional values). -/
inductive JVal where
  | jnull
  | jbool (b : Bool)
  | jnum (n : Int)
  | jstr (s : String)
  | jarr (items : List JVal)
  | jobj (fields : List (String × JVal))

/-- One line of a log file: blank/whitespace, invalid JSON
(`json.JSONDecodeError`), or a parsed JSON value. -/
inductive Line where
  | blank
  | invalid
  | valid (v : JVal)

/-- The fields of a parsed JSON object (a Python dict with string keys),
in insertion order. -/
abbrev Entry := List (String × JVal)

/-- Python `d.get(k)`: the value bound to `k`, or `None` when absent.
JSON parsing keeps the last duplicate key, hence the reversed lookup. -/
def dget (fields : Entry) (k : String) : Option JVal :=
  fields.reverse.lookup k

/-- Python `k in d` on a dict. -/
def hasKey (fields : Entry) (k : String) : Bool :=
  fields.any (fun p => p.1 == k)

/-- Python truthiness of a JSON-derived value. -/
def pyTruthy : JVal → Bool
  | .jnull => false
  | .jbool b => b
  | .jnum n => n != 0
  | .jstr s => s != ""
  | .jarr l => !l.isEmpty
  | .jobj l => !l.isEmpty

/-- Python `v == s` for a string `s`: only equal strings compare equal. -/
def isStrEq : Option JVal → String → Bool
  | some (.jstr t), s => t == s
  | _, _ => false

/-- Truthiness of an `Optional[str]` argument (`None` and `""` are falsy). -/
def truthyF : Option String → Bool
  | none => false
  | some s => s != ""

/-- One filter test of `get_session_history`:
`if f and entry.get(fname) != f: continue` keeps the entry
iff the filter is falsy or the field equals it. -/
def passFilter (fields : Entry) (fname : String) (f : Option String) : Bool :=
  match f with
  | none => true
  | some s => if s == "" then true else isStrEq (dget fields fname) s

/-- Conjunction of the four filters of `get_session_history`. -/
def passAll (t m c e : Option String) (fields : Entry) : Bool :=
  passFilter fields "tenant" t && passFilter fields "module" m &&
    passFilter fields "conversation_id" c && passFilter fields "event" e

/-- Whether any of the four filters is truthy: exactly then a parsed
non-object value reaches an `entry.get` call and raises `AttributeError`. -/
def anyTruthyF (t m c e : Option String) : Bool :=
  truthyF t || truthyF m || truthyF c || truthyF e

/-- The scan loop of `get_session_history`: accumulated results (parsed
values appended in file order) and whether an exception escaped the loop
into the outer `except Exception: pass`. -/
def scanHist (t m c e : Option String) : List Line → List JVal × Bool
  | [] => ([], false)
  | .blank :: rest => scanHist t m c e rest
  | .invalid :: rest => scanHist t m c e rest
  | .valid (.jobj fields) :: rest =>
    let r := scanHist t m c e rest
    if passAll t m c e fields then (JVal.jobj fields :: r.1, r.2) else r
  | .valid v :: rest =>
    if anyTruthyF t m c e then ([], true)
    else
      let r := scanHist t m c e rest
      (v :: r.1, r.2)

/-- Python `l[-limit:]` (the final `return results[-limit:]`), including the
`limit = 0` and negative-limit slice semantics. -/
def pyTailSlice (l : List JVal) (limit : Int) : List JVal :=
  if 0 < limit then l.drop (l.length - limit.toNat) else l.drop (-limit).toNat

/-- Embeds `get_session_history(tenant, module, conversation_id, event, limit)`
on a session log given as a list of lines. -/
def get_session_history (t m c e : Option String) (limit : Int)
    (log : List Line) : List JVal :=
  pyTailSlice (scanHist t m c e log).1 limit

/-- A hashable Python scalar, as used in dict keys.  `True == 1` in Python,
so booleans are identified with the corresponding integers. -/
inductive Scalar where
  | snull
  | snum (n : Int)
  | sstr (s : String)
deriving DecidableEq

/-- The dict-key view of `entry.get(k)`: `None` for an absent key or JSON
null, a scalar otherwise, and `none` when the value is unhashable
(a list or a dict), in which case `sessions[key] = entry` raises. -/
def toKeyPart : Option JVal → Option Scalar
  | none => some .snull
  | some .jnull => some .snull
  | some (.jbool b) => some (.snum (if b then 1 else 0))
  | some (.jnum n) => some (.snum n)
  | some (.jstr s) => some (.sstr s)
  | some (.jarr _) => none
  | some (.jobj _) => none

/-- Computes `key = (entry.get("tenant"), entry.get("module"))`, or `none` when the
tuple is unhashable. -/
def keyOf (fields : Entry) : Option (Scalar × Scalar) :=
  match toKeyPart (dget fields "tenant"), toKeyPart (dget fields "module") with
  | some a, some b => some (a, b)
  | _, _ => none

/-- The `sessions` dict of `get_orphan_sessions`, in iteration
(= insertion) order. -/
abbrev SDict := List ((Scalar × Scalar) × Entry)

/-- Python `sessions[key] = entry`: overwrite in place, or append a fresh
key at the end. -/
def dictInsert (m : SDict) (k : Scalar × Scalar) (v : Entry) : SDict :=
  if m.any (fun p => p.1 == k) then
    m.map (fun p => if p.1 == k then (k, v) else p)
  else m ++ [(k, v)]

/-- Reads the `sessions` dict, as used in specifications. -/
def dictGet (m : SDict) (k : Scalar × Scalar) : Option Entry :=
  (m.find? (fun p => p.1 == k)).map (fun p => p.2)

/-- The scan loop of `get_orphan_sessions` building `sessions`; `none` when
an exception (non-object entry, or unhashable key) escapes into the outer
`except Exception: pass`, discarding the mapping. -/
def scanSessionsAux (m : SDict) : List Line → Option SDict
  | [] => some m
  | .blank :: rest => scanSessionsAux m rest
  | .invalid :: rest => scanSessionsAux m rest
  | .valid (.jobj fields) :: rest =>
    match keyOf fields with
    | some k => scanSessionsAux (dictInsert m k fields) rest
    | none => none
  | .valid _ :: _ => none

/-- The full first phase of `get_orphan_sessions`. -/
def scanSessions (log : List Line) : Option SDict :=
  scanSessionsAux [] log

/-- Tests `entry.get("event") in ("session_killed", "session_disconnected")`. -/
def isTerminal (fields : Entry) : Bool :=
  isStrEq (dget fields "event") "session_killed" ||
    isStrEq (dget fields "event") "session_disconnected"

/-- Python `conv_id in active_conversations` for a list of id strings. -/
def convInActive (v : JVal) (active : List String) : Bool :=
  match v with
  | .jstr s => active.contains s
  | _ => false

/-- The emission test of `get_orphan_sessions`:
not terminated, and `if conv_id and conv_id not in active_conversations`. -/
def orphanFlag (fields : Entry) (active : List String) : Bool :=
  if isTerminal fields then false
  else
    match dget fields "conversation_id" with
    | none => false
    | some v => pyTruthy v && !convInActive v active

/-- Embeds `get_orphan_sessions(active_conversations)` on a session log. -/
def get_orphan_sessions (active : List String) (log : List Line) : List Entry :=
  match scanSessions log with
  | none => []
  | some m => m.filterMap (fun p => if orphanFlag p.2 active then some p.2 else none)

/-! ## The tool-call writer (`log_tool_call` / `_write_log`) -/

/-- A Python exception type relevant to the writer path:
`TypeError`, raised by `v[:100]` on a value that does not support slicing. -/
inductive PyErr where
  | typeError
deriving DecidableEq

/-- Whether a JSON-derived Python value supports `v[:100]`. -/
def sliceable : JVal → Bool
  | .jstr _ => true
  | .jarr _ => true
  | _ => false

/-- Python `v[:n]`: a character slice of a string, an element slice of a
list, and `TypeError` on anything else. -/
def pySlice (v : JVal) (n : Nat) : Except PyErr JVal :=
  match v with
  | .jstr s => .ok (.jstr (String.mk (s.data.take n)))
  | .jarr l => .ok (.jarr (l.take n))
  | _ => .error .typeError

/-- An `Optional[str]` argument as a JSON field value. -/
def optStr : Option String → JVal
  | none => .jnull
  | some s => .jstr s

/-- An `Optional[int]` argument as a JSON field value. -/
def optInt : Option Int → JVal
  | none => .jnull
  | some n => .jnum n

/-- Computes `arguments.get("command", "")[:100] if "command" in arguments else None`. -/
def commandPreview (arguments : Entry) : Except PyErr (Option JVal) :=
  if hasKey arguments "command" then
    match pySlice ((dget arguments "command").getD (.jstr "")) 100 with
    | .ok v => .ok (some v)
    | .error err => .error err
  else .ok none

/-- The `entry` dict literal built by `log_tool_call`, or the exception the
construction raises. -/
def buildToolCallEntry (mcp_name tool_name : String) (arguments : Entry)
    (connection_name conversation_id error : Option String)
    (duration_ms : Option Int) : Except PyErr Entry :=
  match commandPreview arguments with
  | .error err => .error err
  | .ok preview =>
    .ok [("type", .jstr "tool_call"),
         ("mcp", .jstr mcp_name),
         ("tool", .jstr tool_name),
         ("connection", optStr connection_name),
         ("conversation_id", optStr conversation_id),
         ("arguments", .jobj (arguments.filter (fun p => p.1 != "command"))),
         ("command_preview", preview.getD .jnull),
         ("duration_ms", optInt duration_ms),
         ("success", .jbool error.isNone),
         ("error", optStr error)]

/-- Python `entry[k] = v` on a dict. -/
def dictSet (fields : Entry) (k : String) (v : JVal) : Entry :=
  if hasKey fields k then
    fields.map (fun p => if p.1 == k then (k, v) else p)
  else fields ++ [(k, v)]

/-- Embeds `_write_log`: stamps `logged_at` with the wall clock (`ts`), then tries
to append; any failure inside the `try` is swallowed.  Returns the line the
file gained, or `none` when the write failed. -/
def write_log (ts : String) (entry : Entry) (writeFails : Bool) : Option Entry :=
  let stamped := dictSet entry "logged_at" (.jstr ts)
  if writeFails then none else some stamped

/-- Embeds `log_tool_call`: builds the entry (which can raise a `TypeError` on the
`[:100]` slice) and hands it to `_write_log`.  `Except.error` means the
exception propagates to the caller; `Except.ok` is a normal return carrying
the appended line, if any.  The `result` parameter is accepted and ignored,
as in the source. -/
def log_tool_call (mcp_name tool_name : String) (arguments : Entry)
    (connection_name conversation_id result error : Option String)
    (duration_ms : Option Int) (ts : String) (writeFails : Bool) :
    Except PyErr (Option Entry) :=
  match buildToolCallEntry mcp_name tool_name arguments connection_name
      conversation_id error duration_ms with
  | .error err => .error err
  | .ok entry => .ok (write_log ts entry writeFails)

/-! ## Specification-side definitions (for stating the claims) -/

/-- A line is harmless for the readers: blank, invalid JSON, or a JSON
object.  A valid non-object line is the one kind the readers do not merely
skip. -/
def isRecordLine : Line → Bool
  | .valid (.jobj _) => true
  | .valid _ => false
  | _ => true

/-- The log contains no valid-but-non-object line. -/
def noBareValues (log : List Line) : Bool :=
  log.all isRecordLine

/-- All parsed values of a log, in file order. -/
def parsedValues (log : List Line) : List JVal :=
  log.filterMap (fun l => match l with | .valid v => some v | _ => none)

/-- The parseable object records of a log whose `(tenant, module)` key is
`k`, in file order. -/
def recordsForKey (log : List Line) (k : Scalar × Scalar) : List Entry :=
  log.filterMap (fun l =>
    match l with
    | .valid (.jobj fields) => if keyOf fields == some k then some fields else none
    | _ => none)

/-- The spec's reading of one filter: a supplied filter demands equality of
the corresponding field, an omitted one imposes no constraint. -/
def specMatch (fields : Entry) (fname : String) (f : Option String) : Bool :=
  match f with
  | none => true
  | some s => isStrEq (dget fields fname) s

/-- The parseable records satisfying every supplied filter, in file order
(the spec's description of the pre-truncation result set). -/
def specMatches (t m c e : Option String) (log : List Line) : List JVal :=
  log.filterMap (fun l =>
    match l with
    | .valid (.jobj fields) =>
      if specMatch fields "tenant" t && specMatch fields "module" m &&
          specMatch fields "conversation_id" c && specMatch fields "event" e
      then some (.jobj fields) else none
    | _ => none)

/-- Replace an empty-string filter by an omitted one. -/
def normF : Option String → Option String
  | some s => if s == "" then none else some s
  | none => none

/-- Whether a parsed value is a JSON object. -/
def isObj : JVal → Bool
  | .jobj _ => true
  | _ => false

/-- The records `get_session_history` keeps, described declaratively: the
parseable object records passing all four filter tests, in file order. -/
def codeMatches (t m c e : Option String) (log : List Line) : List JVal :=
  log.filterMap (fun l =>
    match l with
    | .valid (.jobj fields) => if passAll t m c e fields then some (.jobj fields) else none
    | _ => none)

/-- The spec's redaction of an argument mapping: drop every binding whose
key is literally `k`. -/
def removeKey (args : Entry) (k : String) : Entry :=
  args.filter (fun p => p.1 != k)

/-- Keys of the `sessions` dict are pairwise distinct. -/
def keysND (m : SDict) : Prop :=
  (m.map Prod.fst).Nodup

/-! ### Concrete session-log material used by the witnesses -/

/-- A `session_start` record for key `("T", "M")`, conversation `C1`. -/
def wStart : Entry :=
  [("type", .jstr "session_event"), ("event", .jstr "session_start"),
   ("tenant", .jstr "T"), ("module", .jstr "M"),
   ("conversation_id", .jstr "C1"), ("details", .jobj []),
   ("duration_seconds", .jnull)]

/-- An `authenticated` record for key `("T", "M")`, conversation `C1`. -/
def wAuth : Entry :=
  [("type", .jstr "session_event"), ("event", .jstr "authenticated"),
   ("tenant", .jstr "T"), ("module", .jstr "M"),
   ("conversation_id", .jstr "C1"), ("details", .jobj []),
   ("duration_seconds", .jnull)]

/-- A `session_idle` record for key `("T", "M")`, conversation `C1`. -/
def wIdle : Entry :=
  [("type", .jstr "session_event"), ("event", .jstr "session_idle"),
   ("tenant", .jstr "T"), ("module", .jstr "M"),
   ("conversation_id", .jstr "C1"), ("details", .jobj []),
   ("duration_seconds", .jnull)]

/-- A three-event log for key `("T", "M")`:
`session_start`, `authenticated`, `session_idle`. -/
def wLog : List Line :=
  [.valid (.jobj wStart), .valid (.jobj wAuth), .valid (.jobj wIdle)]

/-- A non-terminal record whose `conversation_id` is present but empty. -/
def cEmptyConv : Entry :=
  [("event", .jstr "authenticated"), ("tenant", .jstr "T"),
   ("module", .jstr "M"), ("conversation_id", .jstr "")]

/-- A one-line log holding only `cEmptyConv`. -/
def cEmptyConvLog : List Line :=
  [.valid (.jobj cEmptyConv)]

/-- A 150-character command string (longer than the 100-character preview). -/
def longCmd : String :=
  String.mk (List.replicate 150 'a')

/-- The line `log_tool_call "mm" "run" {}` appends (at timestamp `"ts"`). -/
def cPlainEntry : Entry :=
  [("type", .jstr "tool_call"), ("mcp", .jstr "mm"), ("tool", .jstr "run"),
   ("connection", .jnull), ("conversation_id", .jnull),
   ("arguments", .jobj []), ("command_preview", .jnull),
   ("duration_ms", .jnull), ("success", .jbool true), ("error", .jnull),
   ("logged_at", .jstr "ts")]

/-! ## Helper lemmas -/

theorem dictGet_cons (p : (Scalar × Scalar) × Entry) (rest : SDict) (k : Scalar × Scalar) :
    dictGet (p :: rest) k = if p.1 = k then some p.2 else dictGet rest k := by
  by_cases h : p.1 = k
  · simp [dictGet, List.find?_cons, h]
  · simp [dictGet, List.find?_cons, h]

theorem dictGet_map_overwrite (m : SDict) (k k' : Scalar × Scalar) (v : Entry) :
    dictGet (m.map (fun p => if p.1 == k then (k, v) else p)) k' =
      if k' = k then (if m.any (fun p => p.1 == k) then some v else none)
      else dictGet m k' := by
  induction m with
  | nil => by_cases h : k' = k <;> simp [dictGet, h]
  | cons p rest ih =>
    simp only [List.map_cons, List.any_cons]
    by_cases hpk : p.1 = k
    · have hb : (p.1 == k) = true := by simp [hpk]
      simp only [hb, if_true, Bool.true_or]
      rw [dictGet_cons, dictGet_cons, ih]
      by_cases hk' : k' = k
      · subst hk'
        simp [hpk]
      · have h1 : ¬((k, v).1 = k') := fun h => hk' h.symm
        have h2 : ¬(p.1 = k') := by rw [hpk]; exact fun h => hk' h.symm
        simp [h1, h2, hk']
    · have hb : (p.1 == k) = false := by simp [hpk]
      simp only [hb, Bool.false_eq_true, if_false, Bool.false_or]
      rw [dictGet_cons, dictGet_cons, ih]
      by_cases hpk' : p.1 = k'
      · have hk' : ¬(k' = k) := fun h => hpk (hpk'.trans h)
        simp [hpk', hk']
      · simp [hpk']

theorem dictGet_append_single (m : SDict) (q : (Scalar × Scalar) × Entry)
    (k : Scalar × Scalar) :
    dictGet (m ++ [q]) k = (dictGet m k).or (if q.1 = k then some q.2 else none) := by
  unfold dictGet
  rw [List.find?_append]
  by_cases h : q.1 = k
  · simp only [List.find?_cons, h]
    cases List.find? (fun p => p.1 == k) m <;> simp
  · have hb : (q.1 == k) = false := by simp [h]
    simp only [List.find?_cons, hb]
    cases List.find? (fun p => p.1 == k) m <;> simp [h]

theorem dictGet_dictInsert (m : SDict) (k k' : Scalar × Scalar) (v : Entry) :
    dictGet (dictInsert m k v) k' = if k' = k then some v else dictGet m k' := by
  unfold dictInsert
  by_cases hany : m.any (fun p => p.1 == k)
  · rw [if_pos hany, dictGet_map_overwrite, hany]
    simp
  · rw [if_neg hany, dictGet_append_single]
    by_cases hk' : k' = k
    · subst hk'
      have hnone : dictGet m k' = none := by
        unfold dictGet
        rw [List.find?_eq_none.mpr, Option.map_none']
        intro p hp hpk
        exact hany (List.any_eq_true.mpr ⟨p, hp, hpk⟩)
      simp [hnone]
    · have h1 : ¬((k, v).1 = k') := fun h => hk' h.symm
      simp [hk', h1]

theorem keysND_dictInsert {m : SDict} (h : keysND m) (k : Scalar × Scalar) (v : Entry) :
    keysND (dictInsert m k v) := by
  unfold dictInsert
  by_cases hany : m.any (fun p => p.1 == k)
  · rw [if_pos hany]
    unfold keysND at h ⊢
    have : (m.map (fun p => if p.1 == k then (k, v) else p)).map Prod.fst = m.map Prod.fst := by
      rw [List.map_map]
      refine List.map_congr_left ?_
      intro p _
      by_cases hp : p.1 = k
      · simp [hp]
      · simp [hp]
    rw [this]
    exact h
  · rw [if_neg hany]
    unfold keysND at h ⊢
    rw [List.map_append]
    rw [List.nodup_append]
    refine ⟨h, List.nodup_singleton _, ?_⟩
    intro a ha hb
    simp only [List.map_cons, List.map_nil, List.mem_singleton] at hb
    subst hb
    rcases List.mem_map.mp ha with ⟨p, hp, hpk⟩
    exact hany (List.any_eq_true.mpr ⟨p, hp, by simp [hpk]⟩)

theorem mem_iff_dictGet {m : SDict} (h : keysND m) (k : Scalar × Scalar) (e : Entry) :
    (k, e) ∈ m ↔ dictGet m k = some e := by
  induction m with
  | nil => simp [dictGet]
  | cons p rest ih =>
    have hnd : keysND rest := by
      unfold keysND at h ⊢
      exact (List.nodup_cons.mp h).2
    rw [dictGet_cons]
    constructor
    · intro hmem
      rcases List.mem_cons.mp hmem with hhead | htail
      · rw [← hhead]
        simp
      · by_cases hpk : p.1 = k
        · exfalso
          have : k ∈ rest.map Prod.fst := List.mem_map.mpr ⟨(k, e), htail, rfl⟩
          have hh := (List.nodup_cons.mp h).1
          rw [hpk] at hh
          exact hh this
        · rw [if_neg hpk]
          exact (ih hnd).mp htail
    · intro hget
      by_cases hpk : p.1 = k
      · rw [if_pos hpk] at hget
        injection hget with hb
        have : p = (k, e) := Prod.ext hpk hb
        rw [this]
        exact List.mem_cons_self _ _
      · rw [if_neg hpk] at hget
        exact List.mem_cons_of_mem _ ((ih hnd).mpr hget)

theorem scanSessionsAux_keysND {log : List Line} :
    ∀ {m m' : SDict}, keysND m → scanSessionsAux m log = some m' → keysND m' := by
  induction log with
  | nil =>
    intro m m' h hscan
    cases hscan
    exact h
  | cons l rest ih =>
    intro m m' h hscan
    cases l with
    | blank => exact ih h hscan
    | invalid => exact ih h hscan
    | valid v =>
      cases v with
      | jobj fields =>
        simp only [scanSessionsAux] at hscan
        cases hk : keyOf fields with
        | some k =>
          rw [hk] at hscan
          exact ih (keysND_dictInsert h k fields) hscan
        | none => rw [hk] at hscan; cases hscan
      | jnull => cases hscan
      | jbool b => cases hscan
      | jnum n => cases hscan
      | jstr s => cases hscan
      | jarr l => cases hscan

theorem getLast?_cons_or {α : Type} (a : α) (l : List α) :
    (a :: l).getLast? = l.getLast?.or (some a) := by
  rw [← List.singleton_append, List.getLast?_append]
  simp

theorem scanSessionsAux_dictGet {log : List Line} :
    ∀ {m m' : SDict}, scanSessionsAux m log = some m' →
      ∀ k, dictGet m' k = ((recordsForKey log k).getLast?).or (dictGet m k) := by
  induction log with
  | nil =>
    intro m m' hscan k
    cases hscan
    simp [recordsForKey]
  | cons l rest ih =>
    intro m m' hscan k
    cases l with
    | blank =>
      rw [ih hscan k]
      simp [recordsForKey, List.filterMap_cons]
    | invalid =>
      rw [ih hscan k]
      simp [recordsForKey, List.filterMap_cons]
    | valid v =>
      cases v with
      | jobj fields =>
        simp only [scanSessionsAux] at hscan
        cases hk : keyOf fields with
        | some k0 =>
          rw [hk] at hscan
          rw [ih hscan k]
          unfold recordsForKey
          rw [List.filterMap_cons]
          by_cases hkk : k0 = k
          · subst hkk
            have hbeq : (keyOf fields == some k0) = true := by simp [hk]
            simp only [hbeq, if_true]
            rw [getLast?_cons_or, dictGet_dictInsert, Option.or_assoc]
            simp
          · have hbeq : (keyOf fields == some k) = false := by
              rw [hk]
              simp [hkk]
            simp only [hbeq, Bool.false_eq_true, if_false]
            rw [dictGet_dictInsert]
            have : ¬(k = k0) := fun h => hkk h.symm
            rw [if_neg this]
        | none => rw [hk] at hscan; cases hscan
      | jnull => cases hscan
      | jbool b => cases hscan
      | jnum n => cases hscan
      | jstr s => cases hscan
      | jarr l => cases hscan

theorem scanSessions_dictGet {log : List Line} {m : SDict}
    (h : scanSessions log = some m) (k : Scalar × Scalar) :
    dictGet m k = (recordsForKey log k).getLast? := by
  have := scanSessionsAux_dictGet h k
  rw [this]
  simp [dictGet]

theorem scanSessions_keysND {log : List Line} {m : SDict}
    (h : scanSessions log = some m) : keysND m :=
  scanSessionsAux_keysND (by simp [keysND]) h

theorem keyOf_of_mem_recordsForKey {log : List Line} {k : Scalar × Scalar} {e : Entry}
    (h : e ∈ recordsForKey log k) : keyOf e = some k := by
  unfold recordsForKey at h
  rcases List.mem_filterMap.mp h with ⟨l, _, hl⟩
  cases l with
  | blank => cases hl
  | invalid => cases hl
  | valid v =>
    cases v with
    | jobj fields =>
      simp only at hl
      by_cases hkf : (keyOf fields == some k) = true
      · rw [if_pos hkf] at hl
        injection hl with hfe
        rw [← hfe]
        exact beq_iff_eq.mp hkf
      · rw [if_neg hkf] at hl
        cases hl
    | jnull => cases hl
    | jbool b => cases hl
    | jnum n => cases hl
    | jstr s => cases hl
    | jarr l' => cases hl

theorem orphanFlag_iff (e : Entry) (active : List String) :
    orphanFlag e active = true ↔
      isTerminal e = false ∧
        ∃ v, dget e "conversation_id" = some v ∧ pyTruthy v = true ∧
          convInActive v active = false := by
  unfold orphanFlag
  cases ht : isTerminal e with
  | true => simp
  | false =>
    simp only [Bool.false_eq_true, if_false]
    cases hc : dget e "conversation_id" with
    | none => simp
    | some v =>
      constructor
      · intro hflag
        simp only [Bool.and_eq_true] at hflag
        obtain ⟨h1, h2⟩ := hflag
        refine ⟨by trivial, v, rfl, h1, ?_⟩
        cases hca : convInActive v active
        · rfl
        · rw [hca] at h2; cases h2
      · rintro ⟨-, v', hv', htr, hact⟩
        injection hv' with hvv
        rw [← hvv] at htr hact
        simp [htr, hact]

theorem mem_orphans_iff {log : List Line} {m : SDict} (h : scanSessions log = some m)
    (active : List String) (e : Entry) :
    e ∈ get_orphan_sessions active log ↔
      ∃ k, dictGet m k = some e ∧ orphanFlag e active = true := by
  unfold get_orphan_sessions
  rw [h]
  simp only [List.mem_filterMap]
  constructor
  · rintro ⟨p, hp, hcond⟩
    by_cases hflag : orphanFlag p.2 active
    · rw [if_pos hflag] at hcond
      injection hcond with he
      subst he
      exact ⟨p.1, (mem_iff_dictGet (scanSessions_keysND h) p.1 p.2).mp (by
        cases p; exact hp), hflag⟩
    · rw [if_neg hflag] at hcond
      cases hcond
  · rintro ⟨k, hget, hflag⟩
    refine ⟨(k, e), (mem_iff_dictGet (scanSessions_keysND h) k e).mpr hget, ?_⟩
    simp [hflag]

/-! ### History-scan lemmas -/

theorem scanHist_of_noBareValues {t m c e : Option String} :
    ∀ {log : List Line}, noBareValues log = true →
      scanHist t m c e log = (codeMatches t m c e log, false) := by
  intro log
  induction log with
  | nil => intro _; rfl
  | cons l rest ih =>
    intro h
    have hl : isRecordLine l = true := by
      unfold noBareValues at h
      exact (List.all_eq_true.mp h l (List.mem_cons_self _ _))
    have hrest : noBareValues rest = true := by
      unfold noBareValues at h ⊢
      rw [List.all_eq_true] at h ⊢
      exact fun x hx => h x (List.mem_cons_of_mem _ hx)
    cases l with
    | blank =>
      simp only [scanHist, ih hrest]
      simp [codeMatches, List.filterMap_cons]
    | invalid =>
      simp only [scanHist, ih hrest]
      simp [codeMatches, List.filterMap_cons]
    | valid v =>
      cases v with
      | jobj fields =>
        simp only [scanHist, ih hrest]
        unfold codeMatches
        rw [List.filterMap_cons]
        by_cases hp : passAll t m c e fields
        · simp [hp, codeMatches]
        · simp [hp, codeMatches]
      | jnull => cases hl
      | jbool b => cases hl
      | jnum n => cases hl
      | jstr s => cases hl
      | jarr l' => cases hl

theorem scanHist_nofilter :
    ∀ (log : List Line),
      scanHist none none none none log = (parsedValues log, false) := by
  intro log
  induction log with
  | nil => rfl
  | cons l rest ih =>
    cases l with
    | blank =>
      simp only [scanHist, ih]
      simp [parsedValues, List.filterMap_cons]
    | invalid =>
      simp only [scanHist, ih]
      simp [parsedValues, List.filterMap_cons]
    | valid v =>
      cases v with
      | jobj fields =>
        simp only [scanHist, ih]
        have : passAll none none none none fields = true := rfl
        simp [this, parsedValues, List.filterMap_cons]
      | jnull => simp [scanHist, anyTruthyF, truthyF, ih, parsedValues, List.filterMap_cons]
      | jbool b => simp [scanHist, anyTruthyF, truthyF, ih, parsedValues, List.filterMap_cons]
      | jnum n => simp [scanHist, anyTruthyF, truthyF, ih, parsedValues, List.filterMap_cons]
      | jstr s => simp [scanHist, anyTruthyF, truthyF, ih, parsedValues, List.filterMap_cons]
      | jarr l' => simp [scanHist, anyTruthyF, truthyF, ih, parsedValues, List.filterMap_cons]

theorem scanHist_cons_blank (t m c e : Option String) (rest : List Line) :
    scanHist t m c e (.blank :: rest) = scanHist t m c e rest := rfl

theorem scanHist_cons_invalid (t m c e : Option String) (rest : List Line) :
    scanHist t m c e (.invalid :: rest) = scanHist t m c e rest := rfl

theorem scanHist_cons_obj (t m c e : Option String) (fields : Entry) (rest : List Line) :
    scanHist t m c e (.valid (.jobj fields) :: rest) =
      (if passAll t m c e fields then
        (JVal.jobj fields :: (scanHist t m c e rest).1, (scanHist t m c e rest).2)
      else scanHist t m c e rest) := rfl

theorem codeMatches_cons_blank (t m c e : Option String) (rest : List Line) :
    codeMatches t m c e (.blank :: rest) = codeMatches t m c e rest := rfl

theorem codeMatches_cons_invalid (t m c e : Option String) (rest : List Line) :
    codeMatches t m c e (.invalid :: rest) = codeMatches t m c e rest := rfl

theorem codeMatches_cons_obj (t m c e : Option String) (fields : Entry) (rest : List Line) :
    codeMatches t m c e (.valid (.jobj fields) :: rest) =
      (if passAll t m c e fields then JVal.jobj fields :: codeMatches t m c e rest
      else codeMatches t m c e rest) := by
  unfold codeMatches
  rw [List.filterMap_cons]
  cases hp : passAll t m c e fields with
  | true => simp [hp]
  | false => simp [hp]

theorem scanHist_append_bare {t m c e : Option String} (htr : anyTruthyF t m c e = true)
    {v : JVal} (hv : isObj v = false) :
    ∀ {pre : List Line}, noBareValues pre = true → ∀ (suf : List Line),
      scanHist t m c e (pre ++ .valid v :: suf) = (codeMatches t m c e pre, true) := by
  intro pre
  induction pre with
  | nil =>
    intro _ suf
    cases v with
    | jobj fields => cases hv
    | jnull => simp [scanHist, htr, codeMatches]
    | jbool b => simp [scanHist, htr, codeMatches]
    | jnum n => simp [scanHist, htr, codeMatches]
    | jstr s => simp [scanHist, htr, codeMatches]
    | jarr l' => simp [scanHist, htr, codeMatches]
  | cons l rest ih =>
    intro h suf
    have hl : isRecordLine l = true :=
      List.all_eq_true.mp h l (List.mem_cons_self _ _)
    have hrest : noBareValues rest = true := by
      unfold noBareValues at h ⊢
      rw [List.all_eq_true] at h ⊢
      exact fun x hx => h x (List.mem_cons_of_mem _ hx)
    cases l with
    | blank =>
      rw [List.cons_append, scanHist_cons_blank, ih hrest suf, codeMatches_cons_blank]
    | invalid =>
      rw [List.cons_append, scanHist_cons_invalid, ih hrest suf, codeMatches_cons_invalid]
    | valid w =>
      cases w with
      | jobj fields =>
        rw [List.cons_append, scanHist_cons_obj, ih hrest suf, codeMatches_cons_obj]
        by_cases hp : passAll t m c e fields
        · simp [hp]
        · simp [hp]
      | jnull => cases hl
      | jbool b => cases hl
      | jnum n => cases hl
      | jstr s => cases hl
      | jarr l' => cases hl

theorem scanSessionsAux_append_bare {v : JVal} (hv : isObj v = false) :
    ∀ (pre : List Line) (m : SDict) (suf : List Line),
      scanSessionsAux m (pre ++ .valid v :: suf) = none := by
  intro pre
  induction pre with
  | nil =>
    intro m suf
    cases v with
    | jobj fields => cases hv
    | jnull => rfl
    | jbool b => rfl
    | jnum n => rfl
    | jstr s => rfl
    | jarr l' => rfl
  | cons l rest ih =>
    intro m suf
    cases l with
    | blank => exact ih m suf
    | invalid => exact ih m suf
    | valid w =>
      cases w with
      | jobj fields =>
        simp only [List.cons_append, scanSessionsAux]
        cases hk : keyOf fields with
        | some k => exact ih (dictInsert m k fields) suf
        | none => rfl
      | jnull => rfl
      | jbool b => rfl
      | jnum n => rfl
      | jstr s => rfl
      | jarr l' => rfl

/-! ### Filter-argument lemmas -/

theorem passFilter_normF (fields : Entry) (fname : String) (f : Option String) :
    passFilter fields fname (normF f) = passFilter fields fname f := by
  cases f with
  | none => rfl
  | some s =>
    by_cases h : s == ""
    · simp [normF, passFilter, h]
    · simp [normF, passFilter, h]

theorem truthyF_normF (f : Option String) : truthyF (normF f) = truthyF f := by
  cases f with
  | none => rfl
  | some s =>
    by_cases h : s == ""
    · have hs : s = "" := by simpa using h
      simp [normF, truthyF, h, hs]
    · simp [normF, truthyF, h]

theorem passAll_normF (t m c e : Option String) (fields : Entry) :
    passAll (normF t) (normF m) (normF c) (normF e) fields = passAll t m c e fields := by
  unfold passAll
  rw [passFilter_normF, passFilter_normF, passFilter_normF, passFilter_normF]

theorem anyTruthyF_normF (t m c e : Option String) :
    anyTruthyF (normF t) (normF m) (normF c) (normF e) = anyTruthyF t m c e := by
  unfold anyTruthyF
  rw [truthyF_normF, truthyF_normF, truthyF_normF, truthyF_normF]

theorem scanHist_normF (t m c e : Option String) :
    ∀ (log : List Line),
      scanHist (normF t) (normF m) (normF c) (normF e) log = scanHist t m c e log := by
  intro log
  induction log with
  | nil => rfl
  | cons l rest ih =>
    cases l with
    | blank => simpa [scanHist] using ih
    | invalid => simpa [scanHist] using ih
    | valid w =>
      cases w with
      | jobj fields => simp only [scanHist, ih, passAll_normF]
      | jnull => simp only [scanHist, ih, anyTruthyF_normF]
      | jbool b => simp only [scanHist, ih, anyTruthyF_normF]
      | jnum n => simp only [scanHist, ih, anyTruthyF_normF]
      | jstr s => simp only [scanHist, ih, anyTruthyF_normF]
      | jarr l' => simp only [scanHist, ih, anyTruthyF_normF]

theorem passFilter_eq_specMatch (fields : Entry) (fname : String) {f : Option String}
    (hf : f ≠ some "") : passFilter fields fname f = specMatch fields fname f := by
  cases f with
  | none => rfl
  | some s =>
    have hs : ¬(s == "") = true := by
      intro h
      exact hf (by rw [show s = "" from by simpa using h])
    simp [passFilter, specMatch, hs]

theorem codeMatches_eq_specMatches {t m c e : Option String} (ht : t ≠ some "")
    (hm : m ≠ some "") (hc : c ≠ some "") (he : e ≠ some "") (log : List Line) :
    codeMatches t m c e log = specMatches t m c e log := by
  unfold codeMatches specMatches
  induction log with
  | nil => rfl
  | cons l rest ih =>
    rw [List.filterMap_cons, List.filterMap_cons, ih]
    cases l with
    | blank => rfl
    | invalid => rfl
    | valid w =>
      cases w with
      | jobj fields =>
        have : passAll t m c e fields =
            (specMatch fields "tenant" t && specMatch fields "module" m &&
              specMatch fields "conversation_id" c && specMatch fields "event" e) := by
          unfold passAll
          rw [passFilter_eq_specMatch fields "tenant" ht,
            passFilter_eq_specMatch fields "module" hm,
            passFilter_eq_specMatch fields "conversation_id" hc,
            passFilter_eq_specMatch fields "event" he]
        simp only [this]
      | jnull => rfl
      | jbool b => rfl
      | jnum n => rfl
      | jstr s => rfl
      | jarr l' => rfl

/-! ### Slice lemmas -/

theorem pyTailSlice_pos (l : List JVal) {k : Int} (hk : 0 < k) :
    pyTailSlice l k = l.drop (l.length - k.toNat) := by
  unfold pyTailSlice
  rw [if_pos hk]

theorem length_pyTailSlice_le (l : List JVal) {k : Int} (hk : 1 ≤ k) :
    (pyTailSlice l k).length ≤ k.toNat := by
  rw [pyTailSlice_pos l (by omega)]
  rw [List.length_drop]
  omega

/-! ### Argument-dict lemmas -/

theorem dget_append_single (args : Entry) (p : String × JVal) (k : String) :
    dget (args ++ [p]) k = if k == p.1 then some p.2 else dget args k := by
  unfold dget
  rw [List.reverse_append]
  simp only [List.reverse_cons, List.reverse_nil, List.nil_append, List.cons_append,
    List.nil_append]
  rw [List.lookup_cons]
  cases h : k == p.1 with
  | true => simp
  | false => simp

theorem hasKey_append_single (args : Entry) (p : String × JVal) (k : String) :
    hasKey (args ++ [p]) k = (hasKey args k || (p.1 == k)) := by
  unfold hasKey
  rw [List.any_append]
  simp [List.any_cons]

theorem dget_isSome_eq_hasKey (k : String) :
    ∀ (args : Entry), (dget args k).isSome = hasKey args k := by
  intro args
  induction args using List.reverseRecOn with
  | nil => rfl
  | append_singleton rest p ih =>
    rw [dget_append_single, hasKey_append_single, ← ih]
    by_cases h : p.1 = k
    · simp [h]
    · have h' : ¬(k = p.1) := fun hh => h hh.symm
      simp [h, h']

/-! ### Writer lemmas -/

theorem log_tool_call_of_preview {args : Entry} {p : Option JVal}
    (hcp : commandPreview args = .ok p) (mcp_name tool_name : String)
    (conn conv res err : Option String) (dur : Option Int) (ts : String) :
    log_tool_call mcp_name tool_name args conn conv res err dur ts false =
      .ok (some [("type", .jstr "tool_call"), ("mcp", .jstr mcp_name),
        ("tool", .jstr tool_name), ("connection", optStr conn),
        ("conversation_id", optStr conv),
        ("arguments", .jobj (args.filter (fun q => q.1 != "command"))),
        ("command_preview", p.getD .jnull), ("duration_ms", optInt dur),
        ("success", .jbool err.isNone), ("error", optStr err),
        ("logged_at", .jstr ts)]) := by
  unfold log_tool_call buildToolCallEntry
  rw [hcp]
  rfl

theorem log_tool_call_of_preview_error {args : Entry} {err0 : PyErr}
    (hcp : commandPreview args = .error err0) (mcp_name tool_name : String)
    (conn conv res err : Option String) (dur : Option Int) (ts : String)
    (writeFails : Bool) :
    log_tool_call mcp_name tool_name args conn conv res err dur ts writeFails =
      .error err0 := by
  unfold log_tool_call buildToolCallEntry
  rw [hcp]

theorem commandPreview_ok {args : Entry}
    (h : ∀ v, dget args "command" = some v → sliceable v = true) :
    ∃ p, commandPreview args = .ok p := by
  unfold commandPreview
  cases hk : hasKey args "command" with
  | false => exact ⟨none, by simp⟩
  | true =>
    have hsome : (dget args "command").isSome = true := by
      rw [dget_isSome_eq_hasKey, hk]
    obtain ⟨v, hv⟩ := Option.isSome_iff_exists.mp hsome
    have hsl := h v hv
    cases v with
    | jstr s =>
      exact ⟨some (.jstr (String.mk (s.data.take 100))), by rw [hv]; rfl⟩
    | jarr l =>
      exact ⟨some (.jarr (l.take 100)), by rw [hv]; rfl⟩
    | jnull => cases hsl
    | jbool b => cases hsl
    | jnum n => cases hsl
    | jobj f => cases hsl

theorem commandPreview_of_string {args : Entry} {s : String}
    (hs : dget args "command" = some (.jstr s)) :
    commandPreview args = .ok (some (.jstr (String.mk (s.data.take 100)))) := by
  have hk : hasKey args "command" = true := by
    rw [← dget_isSome_eq_hasKey, hs]
    rfl
  unfold commandPreview
  rw [hk, hs]
  rfl

theorem commandPreview_of_absent {args : Entry}
    (hk : hasKey args "command" = false) :
    commandPreview args = .ok none := by
  unfold commandPreview
  rw [hk]
  rfl

/-! ## Claim theorems -/

/-- Claim C2. The per-key reduction computed by `get_orphan_sessions` is
last-write-wins in file order: whenever the scan completes with mapping `m`,
the entry of `m` at any `(tenant, module)` key equals the last parseable
record for that key in the file. -/
theorem sessions_reduction_last_write_wins {log : List Line} {m : SDict}
    (h : scanSessions log = some m) (k : Scalar × Scalar) :
    dictGet m k = (recordsForKey log k).getLast? :=
  scanSessions_dictGet h k

/-- Claim C2 witness. On the log `session_start`, `authenticated`,
`session_idle` for key `("T","M")`, the reduced state is the `session_idle`
record. -/
theorem sessions_reduction_last_write_wins_witness :
    dictGet [((Scalar.sstr "T", Scalar.sstr "M"), wIdle)]
        (Scalar.sstr "T", Scalar.sstr "M") =
      (recordsForKey wLog (Scalar.sstr "T", Scalar.sstr "M")).getLast? ∧
    (recordsForKey wLog (Scalar.sstr "T", Scalar.sstr "M")).getLast? = some wIdle :=
  ⟨sessions_reduction_last_write_wins (by rfl) (Scalar.sstr "T", Scalar.sstr "M"), rfl⟩

/-- Claim C1 (amended). Whenever the orphan scan completes, an entry is
returned by `get_orphan_sessions` exactly when it is the last record of its
`(tenant, module)` key, its event is not terminal, and its
`conversation_id` is present, *truthy* (in particular non-empty), and not in
the active set.  (The original claim required only presence of
`conversation_id`; the code additionally requires Python truthiness.) -/
theorem get_orphan_sessions_mem_iff {log : List Line} {m : SDict}
    (h : scanSessions log = some m) (active : List String) (e : Entry) :
    e ∈ get_orphan_sessions active log ↔
      (∃ k, keyOf e = some k ∧ (recordsForKey log k).getLast? = some e) ∧
        isTerminal e = false ∧
        ∃ v, dget e "conversation_id" = some v ∧ pyTruthy v = true ∧
          convInActive v active = false := by
  rw [mem_orphans_iff h active e]
  constructor
  · rintro ⟨k, hget, hflag⟩
    rw [scanSessions_dictGet h k] at hget
    have he : e ∈ recordsForKey log k :=
      List.mem_of_mem_getLast? (by rw [Option.mem_def]; exact hget)
    obtain ⟨ht, hconv⟩ := (orphanFlag_iff e active).mp hflag
    exact ⟨⟨k, keyOf_of_mem_recordsForKey he, hget⟩, ht, hconv⟩
  · rintro ⟨⟨k, hke, hlast⟩, ht, hconv⟩
    refine ⟨k, ?_, (orphanFlag_iff e active).mpr ⟨ht, hconv⟩⟩
    rw [scanSessions_dictGet h k]
    exact hlast

/-- Claim C1 counterexample. A non-terminal record whose `conversation_id` is
present (the empty string) and not in the (empty) active set is
nevertheless not returned: `if conv_id` discards falsy values, so presence
alone does not suffice, contradicting the claim as stated. -/
theorem get_orphan_sessions_skips_empty_conversation :
    get_orphan_sessions [] cEmptyConvLog = [] ∧
      scanSessions cEmptyConvLog =
        some [((Scalar.sstr "T", Scalar.sstr "M"), cEmptyConv)] ∧
      isTerminal cEmptyConv = false ∧
      dget cEmptyConv "conversation_id" = some (JVal.jstr "") ∧
      convInActive (JVal.jstr "") [] = false :=
  ⟨rfl, rfl, rfl, rfl, rfl⟩

/-- Claim C1 witness. The `session_idle` record for `("T","M")` with
conversation `"C1"` is flagged when `"C1"` is not active. -/
theorem get_orphan_sessions_mem_iff_witness :
    wIdle ∈ get_orphan_sessions [] wLog :=
  (get_orphan_sessions_mem_iff (by rfl) [] wIdle).mpr
    ⟨⟨(Scalar.sstr "T", Scalar.sstr "M"), rfl, rfl⟩, rfl,
      JVal.jstr "C1", rfl, rfl, rfl⟩

/-- Claim C10. Supplying a filter as the empty string (the only falsy value
of `Optional[str]` besides `None`) gives the same result as omitting it. -/
theorem falsy_filters_impose_no_constraint (t m c e : Option String)
    (limit : Int) (log : List Line) :
    get_session_history t m c e limit log =
      get_session_history (normF t) (normF m) (normF c) (normF e) limit log := by
  unfold get_session_history
  rw [scanHist_normF]

/-- Claim C7. A log with one invalid-JSON line between two valid records
yields exactly the two records, and no exception escapes the scan loop. -/
theorem get_session_history_malformed_line_tolerance (e1 e2 : Entry) :
    get_session_history none none none none 100
        [.valid (.jobj e1), .invalid, .valid (.jobj e2)] =
      [.jobj e1, .jobj e2] ∧
    (scanHist none none none none
        [.valid (.jobj e1), .invalid, .valid (.jobj e2)]).2 = false :=
  ⟨rfl, rfl⟩

/-- Claim C6. With no bare-value lines (cf. C9) and every supplied filter a
non-empty string (cf. C10), the records kept before truncation are exactly
the parseable records equal to every supplied filter; omitted filters
impose no constraint. -/
theorem get_session_history_filter_conjunction (t m c e : Option String)
    {log : List Line} (hlog : noBareValues log = true) (ht : t ≠ some "")
    (hm : m ≠ some "") (hc : c ≠ some "") (he : e ≠ some "") :
    (scanHist t m c e log).1 = specMatches t m c e log := by
  rw [scanHist_of_noBareValues hlog]
  exact codeMatches_eq_specMatches ht hm hc he log

/-- Claim C6 witness. Filtering `wLog` on tenant `"T"` and event
`"session_idle"` keeps exactly the `session_idle` record. -/
theorem get_session_history_filter_conjunction_witness :
    (scanHist (some "T") none none (some "session_idle") wLog).1 =
      specMatches (some "T") none none (some "session_idle") wLog ∧
    specMatches (some "T") none none (some "session_idle") wLog =
      [JVal.jobj wIdle] :=
  ⟨@get_session_history_filter_conjunction (some "T") none none
      (some "session_idle") wLog rfl (by decide) (by decide)
      (by decide) (by decide), rfl⟩

/-- Claim C3 (amended). For every *positive* limit `k`: when the number of
matching records exceeds `k`, `get_session_history` returns exactly the
last `k` matches in file order, and it always returns at most `k` records.
(For `k = 0` Python's `results[-0:]` returns everything, see the
counterexample.) -/
theorem get_session_history_limit_semantics (t m c e : Option String)
    (k : Int) (hk : 1 ≤ k) {log : List Line} (hlog : noBareValues log = true) :
    (k.toNat < (codeMatches t m c e log).length →
      get_session_history t m c e k log =
        (codeMatches t m c e log).drop
          ((codeMatches t m c e log).length - k.toNat) ∧
      (get_session_history t m c e k log).length = k.toNat) ∧
    (get_session_history t m c e k log).length ≤ k.toNat := by
  have hs : scanHist t m c e log = (codeMatches t m c e log, false) :=
    scanHist_of_noBareValues hlog
  have hs1 : (scanHist t m c e log).1 = codeMatches t m c e log := by rw [hs]
  unfold get_session_history
  rw [hs1]
  refine ⟨?_, length_pyTailSlice_le _ hk⟩
  intro hlen
  refine ⟨pyTailSlice_pos _ (by omega), ?_⟩
  rw [pyTailSlice_pos _ (by omega), List.length_drop]
  omega

/-- Claim C3 counterexample. With `limit = 0` the call returns all three
records of `wLog`, not at most `0`: Python's `results[-0:]` is the whole
list. -/
theorem get_session_history_limit_zero_returns_all :
    (get_session_history none none none none 0 wLog).length = 3 ∧
      get_session_history none none none none 0 wLog =
        [JVal.jobj wStart, JVal.jobj wAuth, JVal.jobj wIdle] :=
  ⟨rfl, rfl⟩

/-- Claim C3 witness. `limit = 2` on the three-record log `wLog` returns the
last two records. -/
theorem get_session_history_limit_semantics_witness :
    get_session_history none none none none 2 wLog =
      [JVal.jobj wAuth, JVal.jobj wIdle] ∧
    (get_session_history none none none none 2 wLog).length ≤ (2 : Int).toNat := by
  obtain ⟨h1, h2⟩ :=
    @get_session_history_limit_semantics none none none none 2 (by decide)
      wLog rfl
  obtain ⟨h3, -⟩ := h1 (by decide)
  exact ⟨h3.trans rfl, h2⟩

/-- Claim C9 (amended). On a log containing a valid-JSON line that is not an
object: with at least one truthy filter, `get_session_history` stops at the
first such line (an `AttributeError` escapes the loop) and returns the
truncated matches accumulated before it; `get_orphan_sessions` always
returns the empty list; but with no truthy filter supplied,
`get_session_history` does *not* stop — it appends the non-object value
itself and scans to the end. -/
theorem bare_json_value_line_behavior (t m c e : Option String) (limit : Int)
    (active : List String) {v : JVal} (hv : isObj v = false)
    {pre : List Line} (hpre : noBareValues pre = true) (suf : List Line) :
    (anyTruthyF t m c e = true →
      get_session_history t m c e limit (pre ++ .valid v :: suf) =
        pyTailSlice (codeMatches t m c e pre) limit ∧
      (scanHist t m c e (pre ++ .valid v :: suf)).2 = true) ∧
    get_orphan_sessions active (pre ++ .valid v :: suf) = [] ∧
    get_session_history none none none none limit (pre ++ .valid v :: suf) =
      pyTailSlice (parsedValues (pre ++ .valid v :: suf)) limit := by
  have habort : scanSessions (pre ++ .valid v :: suf) = none :=
    scanSessionsAux_append_bare hv pre [] suf
  refine ⟨?_, ?_, ?_⟩
  · intro htr
    have hs := scanHist_append_bare htr hv hpre suf
    constructor
    · unfold get_session_history
      rw [hs]
    · rw [hs]
  · unfold get_orphan_sessions
    rw [habort]
  · unfold get_session_history
    rw [scanHist_nofilter]

/-- Claim C9 counterexample. With no filters, a bare-number line is neither
skipped nor a stopping point: the scan appends the number itself and
continues to the following record, returning both — not the empty list of
results accumulated before the bare line. -/
theorem bare_json_value_line_not_stopping :
    get_session_history none none none none 100
        [.valid (.jnum 1), .valid (.jobj wIdle)] =
      [JVal.jnum 1, JVal.jobj wIdle] ∧
    (get_session_history none none none none 100
        [.valid (.jnum 1), .valid (.jobj wIdle)]).length = 2 :=
  ⟨rfl, rfl⟩

/-- Claim C9 witness. A record, then a bare number, then another record:
with filter tenant `"T"` the call stops at the bare line and returns only
the first record; orphan detection returns nothing; with no filters both
records and the bare number are returned. -/
theorem bare_json_value_line_behavior_witness :
    get_session_history (some "T") none none none 100
        ([.valid (.jobj wStart)] ++ .valid (.jnum 7) :: [.valid (.jobj wAuth)]) =
      pyTailSlice (codeMatches (some "T") none none none [.valid (.jobj wStart)]) 100 ∧
    get_orphan_sessions []
        ([.valid (.jobj wStart)] ++ .valid (.jnum 7) :: [.valid (.jobj wAuth)]) = [] ∧
    get_session_history none none none none 100
        ([.valid (.jobj wStart)] ++ .valid (.jnum 7) :: [.valid (.jobj wAuth)]) =
      pyTailSlice
        (parsedValues
          ([.valid (.jobj wStart)] ++ .valid (.jnum 7) :: [.valid (.jobj wAuth)])) 100 := by
  obtain ⟨h1, h2, h3⟩ :=
    @bare_json_value_line_behavior (some "T") none none none 100 []
      (.jnum 7) rfl [.valid (.jobj wStart)] rfl
      [.valid (.jobj wAuth)]
  exact ⟨(h1 rfl).1, h2, h3⟩

/-- Claim C4 (code bug). `log_tool_call` propagates a `TypeError` to its
caller when the `"command"` argument does not support slicing (here the
number `5`): `arguments.get("command", "")[:100]` runs outside any
`try`, so the call does not return normally, contradicting the
fire-and-forget contract. -/
theorem log_tool_call_raises_on_unsliceable_command :
    log_tool_call "mm" "run" [("command", JVal.jnum 5)] none none none none
        none "2026-01-01T00:00:00" false = Except.error PyErr.typeError :=
  rfl

/-- Claim C5. The persisted record's `arguments` equal the input with every
`"command"` binding removed; a string command longer than 100 characters
yields a preview of exactly its first 100 characters; an absent command
yields a null preview. -/
theorem log_tool_call_redaction (mcp_name tool_name : String) (args : Entry)
    (conn conv res err : Option String) (dur : Option Int) (ts : String) :
    (∀ entry, log_tool_call mcp_name tool_name args conn conv res err dur ts
        false = .ok (some entry) →
      dget entry "arguments" = some (.jobj (removeKey args "command"))) ∧
    (∀ s : String, dget args "command" = some (.jstr s) → 100 < s.length →
      ∃ entry, log_tool_call mcp_name tool_name args conn conv res err dur ts
          false = .ok (some entry) ∧
        dget entry "command_preview" =
          some (.jstr (String.mk (s.data.take 100))) ∧
        (String.mk (s.data.take 100)).length = 100) ∧
    (hasKey args "command" = false →
      ∃ entry, log_tool_call mcp_name tool_name args conn conv res err dur ts
          false = .ok (some entry) ∧
        dget entry "command_preview" = some JVal.jnull) := by
  refine ⟨?_, ?_, ?_⟩
  · intro entry heq
    cases hcp : commandPreview args with
    | error err0 =>
      rw [log_tool_call_of_preview_error hcp mcp_name tool_name conn conv res
        err dur ts false] at heq
      cases heq
    | ok p =>
      rw [log_tool_call_of_preview hcp mcp_name tool_name conn conv res err
        dur ts] at heq
      injection heq with heq'
      injection heq' with heq''
      rw [← heq'']
      rfl
  · intro s hs hlen
    refine ⟨_, log_tool_call_of_preview (commandPreview_of_string hs) mcp_name
      tool_name conn conv res err dur ts, rfl, ?_⟩
    have h1 : (String.mk (s.data.take 100)).length = (s.data.take 100).length := rfl
    have h2 : s.length = s.data.length := rfl
    rw [h1, List.length_take]
    omega
  · intro hk
    exact ⟨_, log_tool_call_of_preview (commandPreview_of_absent hk) mcp_name
      tool_name conn conv res err dur ts, rfl⟩

set_option maxRecDepth 8192 in
/-- Claim C5 witness. A 150-character command is dropped from `arguments` and
previewed as exactly its first 100 characters. -/
theorem log_tool_call_redaction_witness :
    ∃ entry, log_tool_call "mm" "run"
        [("command", JVal.jstr longCmd), ("user", JVal.jstr "u")]
        none none none none none "ts" false = .ok (some entry) ∧
      dget entry "command_preview" =
        some (JVal.jstr (String.mk (longCmd.data.take 100))) ∧
      (String.mk (longCmd.data.take 100)).length = 100 ∧
      dget entry "arguments" = some (JVal.jobj [("user", JVal.jstr "u")]) := by
  obtain ⟨entry, heq, hprev, hlen⟩ :=
    (log_tool_call_redaction "mm" "run"
      [("command", JVal.jstr longCmd), ("user", JVal.jstr "u")]
      none none none none none "ts").2.1 longCmd rfl (by decide)
  refine ⟨entry, heq, hprev, hlen, ?_⟩
  have harg :=
    (log_tool_call_redaction "mm" "run"
      [("command", JVal.jstr longCmd), ("user", JVal.jstr "u")]
      none none none none none "ts").1 entry heq
  rw [harg]
  rfl

/-- Claim C8 (amended). Every record persisted by `log_tool_call` (for a
sliceable command value) carries the fields `type=\"tool_call\"`, `mcp`,
`tool`, `connection` (null when not supplied), `conversation_id`,
`arguments`, `command_preview`, `duration_ms`, `success`, `error` and
`logged_at`, with `success` true exactly when `error` is absent.  (The
claim's names `mcp_name`, `tool_name` and `connection_name` are the
function's parameter names; the persisted keys are `mcp`, `tool` and
`connection` — see the counterexample.) -/
theorem log_tool_call_entry_fields (mcp_name tool_name : String)
    (args : Entry) (conn conv res err : Option String) (dur : Option Int)
    (ts : String)
    (h : ∀ v, dget args "command" = some v → sliceable v = true) :
    ∃ entry, log_tool_call mcp_name tool_name args conn conv res err dur ts
        false = .ok (some entry) ∧
      dget entry "type" = some (.jstr "tool_call") ∧
      dget entry "mcp" = some (.jstr mcp_name) ∧
      dget entry "tool" = some (.jstr tool_name) ∧
      dget entry "connection" = some (optStr conn) ∧
      dget entry "conversation_id" = some (optStr conv) ∧
      hasKey entry "arguments" = true ∧
      hasKey entry "command_preview" = true ∧
      dget entry "duration_ms" = some (optInt dur) ∧
      dget entry "success" = some (.jbool err.isNone) ∧
      dget entry "error" = some (optStr err) ∧
      dget entry "logged_at" = some (.jstr ts) := by
  obtain ⟨p, hcp⟩ := commandPreview_ok h
  exact ⟨_, log_tool_call_of_preview hcp mcp_name tool_name conn conv res err
    dur ts, rfl, rfl, rfl, rfl, rfl, rfl, rfl, rfl, rfl, rfl, rfl⟩

/-- Claim C8 counterexample. The persisted keys are `mcp`, `tool` and
`connection`; no field named `mcp_name`, `tool_name` or `connection_name`
exists in the written record, contradicting the claim as stated. -/
theorem log_tool_call_field_names_counterexample :
    log_tool_call "mm" "run" [] none none none none none "ts" false =
      .ok (some cPlainEntry) ∧
    dget cPlainEntry "mcp_name" = none ∧
    dget cPlainEntry "tool_name" = none ∧
    dget cPlainEntry "connection_name" = none ∧
    dget cPlainEntry "mcp" = some (JVal.jstr "mm") ∧
    dget cPlainEntry "tool" = some (JVal.jstr "run") :=
  ⟨rfl, rfl, rfl, rfl, rfl, rfl⟩

/-- Claim C8 witness. Concrete instantiation with no `command` argument and
no error: `success` is `true` and all fields are present. -/
theorem log_tool_call_entry_fields_witness :
    ∃ entry, log_tool_call "mm" "run" [("x", JVal.jnum 1)] (some "ForIT-GA")
        (some "C1") none none (some 12) "ts" false = .ok (some entry) ∧
      dget entry "type" = some (.jstr "tool_call") ∧
      dget entry "mcp" = some (.jstr "mm") ∧
      dget entry "tool" = some (.jstr "run") ∧
      dget entry "connection" = some (optStr (some "ForIT-GA")) ∧
      dget entry "conversation_id" = some (optStr (some "C1")) ∧
      hasKey entry "arguments" = true ∧
      hasKey entry "command_preview" = true ∧
      dget entry "duration_ms" = some (optInt (some 12)) ∧
      dget entry "success" = some (.jbool (Option.isNone (none : Option String))) ∧
      dget entry "error" = some (optStr none) ∧
      dget entry "logged_at" = some (.jstr "ts") :=
  log_tool_call_entry_fields "mm" "run" [("x", JVal.jnum 1)] (some "ForIT-GA")
    (some "C1") none none (some 12) "ts"
    (fun _ hv => Option.noConfusion hv)

end McpLogger
